import Mathlib

/-
Shallow embedding of the signal/slot library in src/include/signals.hpp
(classes SignalBase, Connection, Slot, Signal).

Heap objects are identified by natural-number ids. A World holds, as
association lists keyed by id:
  - conns   : every allocated Connection object (shared_ptr-kept-alive
              handles; a Connection record is never deallocated here,
              mirroring a caller that keeps its handle);
  - slots   : every live Slot object, each carrying its m_connections set
              (modelled as a list of connection ids, kept sorted the way
              std::set keeps its keys sorted);
  - signals : every live Signal object, each carrying its m_connections
              map from connection id to the stored callable (modelled as
              an association list kept sorted by key, the way std::map
              iterates in key order).

A stored callable is type-erased to a token: either a free function id
(the std::function overload of connect) or a bound method, remembering
the target slot id and a method id (the member-pointer overload).
Invoking a callable is modelled as emitting an invocation event, since
the body of a caller-supplied callable is outside the core.

Mutating operations additionally return a trace of primitive actions
(writes to the two back-reference fields of a Connection, and calls into
the virtual removal entry point SignalBase::disconnect), so that claims
about the order of those steps can be stated.

The source assumes callers never invoke a method through a dangling
pointer (that would be undefined behaviour in C++); the embedding makes
every operation total by returning the state unchanged when a referenced
id is absent, and theorems carry liveness hypotheses instead.
-/

/-- Type-erased callable stored in a Signal table: a free function token,
or a bound method on a slot object. -/
inductive Callable where
  | free (f : Nat)
  | bound (slot : Nat) (method : Nat)
deriving DecidableEq

/-- Fields of class Connection: the two nullable non-owning
back-references m_pSignal and m_pSlot. The re-entrant mutex is not part
of the sequential state. -/
structure Connection where
  m_pSignal : Option Nat
  m_pSlot : Option Nat
deriving DecidableEq

/-- Primitive traced actions: writes to a Connection back-reference
field, and the call into the virtual removal entry point
SignalBase::disconnect. -/
inductive Act where
  | setPSignal (c : Nat) (v : Option Nat)
  | setPSlot (c : Nat) (v : Option Nat)
  | callSignalDisconnect (sig : Nat) (c : Nat)
deriving DecidableEq

/-- The heap: all allocated Connection records, live Slot objects with
their m_connections sets, live Signal objects with their m_connections
maps, and the allocator counter for fresh Connection ids. -/
structure World where
  conns : List (Nat × Connection)
  slots : List (Nat × List Nat)
  signals : List (Nat × List (Nat × Callable))
  nextId : Nat
deriving DecidableEq

/-- Lookup in an association list, first occurrence of the key. -/
def alookup {β : Type} (k : Nat) : List (Nat × β) → Option β
  | [] => none
  | (k', v) :: rest => if k = k' then some v else alookup k rest

/-- Overwrite the value at an existing key (a field write through a
pointer); absent keys are left untouched. -/
def aupdate {β : Type} (k : Nat) (v : β) : List (Nat × β) → List (Nat × β)
  | [] => []
  | (k', v') :: rest => if k = k' then (k', v) :: rest else (k', v') :: aupdate k v rest

/-- Modify the value at an existing key in place. -/
def amodify {β : Type} (k : Nat) (f : β → β) : List (Nat × β) → List (Nat × β)
  | [] => []
  | (k', v) :: rest => if k = k' then (k', f v) :: rest else (k', v) :: amodify k f rest

/-- Erase the entry of a key, modelling map::erase(key) on a unique-key
std::map (removes the first occurrence). -/
def aerase {β : Type} (k : Nat) : List (Nat × β) → List (Nat × β)
  | [] => []
  | (k', v) :: rest => if k = k' then rest else (k', v) :: aerase k rest

/-- Sorted insertion of a fresh key into an association list, modelling
std::map::insert (no overwrite when the key already exists). -/
def tinsert {β : Type} (k : Nat) (v : β) : List (Nat × β) → List (Nat × β)
  | [] => [(k, v)]
  | (k', v') :: rest =>
    if k < k' then (k, v) :: (k', v') :: rest
    else if k = k' then (k', v') :: rest
    else (k', v') :: tinsert k v rest

/-- Sorted insertion into a set of ids, modelling std::set::insert. -/
def sinsert (c : Nat) : List Nat → List Nat
  | [] => [c]
  | x :: rest =>
    if c < x then c :: x :: rest
    else if c = x then x :: rest
    else x :: sinsert c rest

/-- Erase an id from a set of ids, modelling std::set::erase. -/
def serase (c : Nat) : List Nat → List Nat
  | [] => []
  | x :: rest => if x = c then rest else x :: serase c rest

/-- Signal::disconnect(connection), the virtual removal entry point.
Source: erase the connection from m_connections and return if nothing
was erased; otherwise null the connection's m_pSignal, read its m_pSlot,
and if that is non-null erase the connection from the slot's set and
null m_pSlot as well. -/
def Signal.disconnect (w : World) (sig c : Nat) : World × List Act :=
  match alookup sig w.signals with
  | none => (w, [])
  | some table =>
    if (alookup c table).isNone then
      (w, [])
    else
      let w1 : World := { w with signals := aupdate sig (aerase c table) w.signals }
      match alookup c w1.conns with
      | none => (w1, [])
      | some conn =>
        let w2 : World := { w1 with conns := aupdate c { conn with m_pSignal := none } w1.conns }
        match conn.m_pSlot with
        | none => (w2, [Act.setPSignal c none])
        | some s =>
          let w3 : World := { w2 with slots := amodify s (serase c) w2.slots }
          let w4 : World := { w3 with conns := aupdate c { conn with m_pSignal := none, m_pSlot := none } w3.conns }
          (w4, [Act.setPSignal c none, Act.setPSlot c none])

/-- Connection::disconnect(). Source: under the Connection's own lock,
if m_pSignal is non-null, snapshot it and call its virtual disconnect
with a non-owning alias of this; nothing else. Note the source does not
write to m_pSignal here; the write happens inside Signal::disconnect. -/
def Connection.disconnect (w : World) (c : Nat) : World × List Act :=
  match alookup c w.conns with
  | none => (w, [])
  | some conn =>
    match conn.m_pSignal with
    | none => (w, [])
    | some sig =>
      let r := Signal.disconnect w sig c
      (r.1, Act.callSignalDisconnect sig c :: r.2)

/-- Loop body of Signal::disconnectAll over the entries of
m_connections. Source per entry: null the connection's m_pSignal; read
its m_pSlot; if non-null, erase the connection from that slot's set.
The source does not null m_pSlot on this path. -/
def Signal.disconnectAllLoop : List (Nat × Callable) → World → World × List Act
  | [], w => (w, [])
  | (c, _) :: rest, w =>
    match alookup c w.conns with
    | none => Signal.disconnectAllLoop rest w
    | some conn =>
      let w1 : World := { w with conns := aupdate c { conn with m_pSignal := none } w.conns }
      let w2 : World :=
        match conn.m_pSlot with
        | none => w1
        | some s => { w1 with slots := amodify s (serase c) w1.slots }
      let r := Signal.disconnectAllLoop rest w2
      (r.1, Act.setPSignal c none :: r.2)

/-- Signal::disconnectAll(): run the loop over every table entry, then
clear m_connections. -/
def Signal.disconnectAll (w : World) (sig : Nat) : World × List Act :=
  match alookup sig w.signals with
  | none => (w, [])
  | some table =>
    let r := Signal.disconnectAllLoop table w
    ({ r.1 with signals := aupdate sig [] r.1.signals }, r.2)

/-- Destruction of a Signal object: the destructor body calls
disconnectAll, then the object (with its map member) is deallocated. -/
def Signal.destroy (w : World) (sig : Nat) : World × List Act :=
  let r := Signal.disconnectAll w sig
  ({ r.1 with signals := aerase sig r.1.signals }, r.2)

/-- Signal::connect(std::function): allocate a Connection with m_pSignal
set to this signal and m_pSlot null, insert it into m_connections with
the free callable, and return the handle. -/
def Signal.connectFunc (w : World) (sig : Nat) (f : Nat) : World × Nat :=
  match alookup sig w.signals with
  | none => (w, w.nextId)
  | some table =>
    let c := w.nextId
    ({ w with
        conns := tinsert c { m_pSignal := some sig, m_pSlot := none } w.conns,
        signals := aupdate sig (tinsert c (Callable.free f) table) w.signals,
        nextId := c + 1 }, c)

/-- Signal::connect(slot, method): allocate a Connection with both
back-references set, insert it into the signal's map with the bound
callable, and insert it into the slot's set. -/
def Signal.connectMethod (w : World) (sig slot m : Nat) : World × Nat :=
  match alookup sig w.signals, alookup slot w.slots with
  | some table, some sset =>
    let c := w.nextId
    ({ w with
        conns := tinsert c { m_pSignal := some sig, m_pSlot := some slot } w.conns,
        signals := aupdate sig (tinsert c (Callable.bound slot m) table) w.signals,
        slots := aupdate slot (sinsert c sset) w.slots,
        nextId := c + 1 }, c)
  | _, _ => (w, w.nextId)

/-- Loop of the Slot destructor over the entries of its m_connections
set. Source per connection: under the connection's lock, if m_pSignal is
non-null, null m_pSlot first, snapshot and null m_pSignal, then call the
signal's virtual disconnect. The set itself is not modified by the loop. -/
def Slot.dtorLoop : List Nat → World → World × List Act
  | [], w => (w, [])
  | c :: rest, w =>
    match alookup c w.conns with
    | none => Slot.dtorLoop rest w
    | some conn =>
      match conn.m_pSignal with
      | none => Slot.dtorLoop rest w
      | some sig =>
        let w1 : World := { w with conns := aupdate c { conn with m_pSignal := none, m_pSlot := none } w.conns }
        let r1 := Signal.disconnect w1 sig c
        let r2 := Slot.dtorLoop rest r1.1
        (r2.1,
          Act.setPSlot c none :: Act.setPSignal c none ::
            Act.callSignalDisconnect sig c :: (r1.2 ++ r2.2))

/-- Body of the Slot destructor: run the loop over the current
m_connections set. The set member still exists when the body finishes. -/
def Slot.dtorBody (w : World) (s : Nat) : World × List Act :=
  match alookup s w.slots with
  | none => (w, [])
  | some sset => Slot.dtorLoop sset w

/-- Full destruction of a Slot object: destructor body, then the object
and its set member are deallocated. -/
def Slot.destroy (w : World) (s : Nat) : World × List Act :=
  let r := Slot.dtorBody w s
  ({ r.1 with slots := aerase s r.1.slots }, r.2)

/-- Signal::emit(args...): walk m_connections in iteration order and
invoke every stored callable with the given arguments. Invocations are
recorded as events; the signal state is only read. -/
def Signal.emit {α : Type} (w : World) (sig : Nat) (a : α) : World × List (Callable × α) :=
  match alookup sig w.signals with
  | none => (w, [])
  | some table => (w, table.map (fun kv => (kv.2, a)))

/-- Signal::operator()(args...): the source duplicates the body of emit
verbatim, so the embedding repeats it as well. -/
def Signal.callOp {α : Type} (w : World) (sig : Nat) (a : α) : World × List (Callable × α) :=
  match alookup sig w.signals with
  | none => (w, [])
  | some table => (w, table.map (fun kv => (kv.2, a)))

/-- Signal::count(): size of m_connections. -/
def Signal.count (w : World) (sig : Nat) : Nat :=
  match alookup sig w.signals with
  | none => 0
  | some table => table.length


/-
Association-list lemmas used by the verification below.
-/

theorem alookup_aupdate_self {β : Type} (k : Nat) (v : β) :
    ∀ l : List (Nat × β), (alookup k l).isSome → alookup k (aupdate k v l) = some v := by
  intro l
  induction l with
  | nil => intro h; simp [alookup] at h
  | cons p rest ih =>
    obtain ⟨a, b⟩ := p
    intro h
    by_cases hk : k = a
    · simp [alookup, aupdate, hk]
    · simp [alookup, aupdate, hk] at h ⊢
      exact ih h

theorem alookup_aupdate_ne {β : Type} (k k' : Nat) (v : β) (hne : k' ≠ k) :
    ∀ l : List (Nat × β), alookup k' (aupdate k v l) = alookup k' l := by
  intro l
  induction l with
  | nil => simp [aupdate]
  | cons p rest ih =>
    obtain ⟨a, b⟩ := p
    by_cases hk : k = a
    · subst hk
      simp [alookup, aupdate, hne]
    · by_cases hk' : k' = a
      · simp [alookup, aupdate, hk, hk']
      · simp [alookup, aupdate, hk, hk', ih]

theorem alookup_aerase_ne {β : Type} (k k' : Nat) (hne : k' ≠ k) :
    ∀ l : List (Nat × β), alookup k' (aerase k l) = alookup k' l := by
  intro l
  induction l with
  | nil => simp [aerase]
  | cons p rest ih =>
    obtain ⟨a, b⟩ := p
    by_cases hk : k = a
    · subst hk
      simp [alookup, aerase, hne]
    · by_cases hk' : k' = a
      · simp [alookup, aerase, hk, hk']
      · simp [alookup, aerase, hk, hk', ih]

theorem aerase_length {β : Type} (k : Nat) :
    ∀ l : List (Nat × β), (alookup k l).isSome → (aerase k l).length + 1 = l.length := by
  intro l
  induction l with
  | nil => intro h; simp [alookup] at h
  | cons p rest ih =>
    obtain ⟨a, b⟩ := p
    intro h
    by_cases hk : k = a
    · simp [aerase, hk]
    · simp [alookup, hk] at h
      simp [aerase, hk, ih h]

theorem mem_of_mem_aerase {β : Type} (k : Nat) (x : Nat × β) :
    ∀ l : List (Nat × β), x ∈ aerase k l → x ∈ l := by
  intro l
  induction l with
  | nil => simp [aerase]
  | cons p rest ih =>
    obtain ⟨a, b⟩ := p
    by_cases hk : k = a
    · simp [aerase, hk]
      intro h
      exact Or.inr h
    · simp only [aerase, hk, if_false, List.mem_cons]
      rintro (h | h)
      · exact Or.inl h
      · exact Or.inr (ih h)

theorem aerase_keys_sublist {β : Type} (k : Nat) :
    ∀ l : List (Nat × β), ((aerase k l).map Prod.fst).Sublist (l.map Prod.fst) := by
  intro l
  induction l with
  | nil => simp [aerase]
  | cons p rest ih =>
    obtain ⟨a, b⟩ := p
    by_cases hk : k = a
    · simp only [aerase, hk, if_pos rfl, List.map_cons]
      exact List.sublist_cons_self a (rest.map Prod.fst)
    · simp only [aerase, hk, if_false, List.map_cons]
      exact ih.cons₂ a

theorem aerase_keys_nodup {β : Type} (k : Nat) (l : List (Nat × β))
    (h : (l.map Prod.fst).Nodup) : ((aerase k l).map Prod.fst).Nodup :=
  h.sublist (aerase_keys_sublist k l)

theorem alookup_mem {β : Type} (k : Nat) (v : β) :
    ∀ l : List (Nat × β), alookup k l = some v → (k, v) ∈ l := by
  intro l
  induction l with
  | nil => simp [alookup]
  | cons p rest ih =>
    obtain ⟨a, b⟩ := p
    by_cases hk : k = a
    · subst hk
      simp [alookup]
      intro h
      exact Or.inl h.symm
    · simp only [alookup, hk, if_false, List.mem_cons]
      intro h
      exact Or.inr (ih h)

theorem alookup_isSome_of_mem {β : Type} (k : Nat) (v : β) :
    ∀ l : List (Nat × β), (k, v) ∈ l → (alookup k l).isSome := by
  intro l
  induction l with
  | nil => simp
  | cons p rest ih =>
    obtain ⟨a, b⟩ := p
    intro h
    by_cases hk : k = a
    · simp [alookup, hk]
    · rcases List.mem_cons.mp h with h1 | h1
      · exact absurd (congrArg Prod.fst h1) hk
      · simp only [alookup, hk, if_false]
        exact ih h1

theorem alookup_aerase_self {β : Type} (k : Nat) :
    ∀ l : List (Nat × β), (l.map Prod.fst).Nodup → alookup k (aerase k l) = none := by
  intro l
  induction l with
  | nil => simp [aerase, alookup]
  | cons p rest ih =>
    obtain ⟨a, b⟩ := p
    intro hnd
    simp at hnd
    by_cases hk : k = a
    · subst hk
      rw [show aerase k ((k, b) :: rest) = rest from by simp [aerase]]
      rcases h : alookup k rest with _ | v
      · rfl
      · exact absurd (alookup_mem k v rest h) (hnd.1 v)
    · simp only [aerase, hk, if_false, alookup]
      exact ih hnd.2

theorem alookup_none_aerase {β : Type} (k k' : Nat) :
    ∀ l : List (Nat × β), alookup k l = none → alookup k (aerase k' l) = none := by
  intro l
  induction l with
  | nil => simp [aerase]
  | cons p rest ih =>
    obtain ⟨a, b⟩ := p
    intro h
    by_cases hk : k = a
    · simp [alookup, hk] at h
    · simp only [alookup, hk, if_false] at h
      by_cases hk' : k' = a
      · simp [aerase, hk', h]
      · simp only [aerase, hk', if_false, alookup, hk, if_false]
        exact ih h

/-- Erase a list of keys from an association list, one after the other,
in order (the accumulated effect of the Slot destructor loop on a Signal
table). -/
def eraseKeys {β : Type} (ks : List Nat) (l : List (Nat × β)) : List (Nat × β) :=
  ks.foldl (fun t c => aerase c t) l

theorem eraseKeys_nil {β : Type} (l : List (Nat × β)) : eraseKeys [] l = l := rfl

theorem eraseKeys_cons {β : Type} (c : Nat) (ks : List Nat) (l : List (Nat × β)) :
    eraseKeys (c :: ks) l = eraseKeys ks (aerase c l) := rfl

theorem eraseKeys_length {β : Type} :
    ∀ (ks : List Nat) (l : List (Nat × β)), ks.Nodup →
      (∀ c ∈ ks, (alookup c l).isSome) →
      (eraseKeys ks l).length + ks.length = l.length := by
  intro ks
  induction ks with
  | nil => intro l _ _; simp [eraseKeys]
  | cons c0 rest ih =>
    intro l hnd hin
    rw [eraseKeys_cons]
    have h0 : (alookup c0 l).isSome := hin c0 (List.mem_cons_self c0 rest)
    have hrest : ∀ c ∈ rest, (alookup c (aerase c0 l)).isSome := by
      intro c hc
      have hne : c ≠ c0 := fun h => (List.nodup_cons.mp hnd).1 (h ▸ hc)
      rw [alookup_aerase_ne c0 c hne]
      exact hin c (List.mem_cons_of_mem c0 hc)
    have := ih (aerase c0 l) (List.nodup_cons.mp hnd).2 hrest
    have hlen := aerase_length c0 l h0
    simp only [List.length_cons]
    omega

theorem mem_of_mem_eraseKeys {β : Type} :
    ∀ (ks : List Nat) (l : List (Nat × β)) (x : Nat × β), x ∈ eraseKeys ks l → x ∈ l := by
  intro ks
  induction ks with
  | nil => intro l x h; simpa [eraseKeys] using h
  | cons c0 rest ih =>
    intro l x h
    rw [eraseKeys_cons] at h
    exact mem_of_mem_aerase c0 x l (ih (aerase c0 l) x h)

theorem eraseKeys_keys_nodup {β : Type} :
    ∀ (ks : List Nat) (l : List (Nat × β)), (l.map Prod.fst).Nodup →
      ((eraseKeys ks l).map Prod.fst).Nodup := by
  intro ks
  induction ks with
  | nil => intro l h; simpa [eraseKeys] using h
  | cons c0 rest ih =>
    intro l h
    rw [eraseKeys_cons]
    exact ih (aerase c0 l) (aerase_keys_nodup c0 l h)

theorem alookup_none_eraseKeys {β : Type} :
    ∀ (ks : List Nat) (l : List (Nat × β)) (k : Nat),
      alookup k l = none → alookup k (eraseKeys ks l) = none := by
  intro ks
  induction ks with
  | nil => intro l k h; simpa [eraseKeys] using h
  | cons c0 rest ih =>
    intro l k h
    rw [eraseKeys_cons]
    exact ih (aerase c0 l) k (alookup_none_aerase k c0 l h)

theorem eraseKeys_lookup_none {β : Type} :
    ∀ (ks : List Nat) (l : List (Nat × β)) (c : Nat), (l.map Prod.fst).Nodup →
      c ∈ ks → alookup c (eraseKeys ks l) = none := by
  intro ks
  induction ks with
  | nil => intro l c _ h; simp at h
  | cons c0 rest ih =>
    intro l c hnd hc
    rw [eraseKeys_cons]
    by_cases he : c = c0
    · subst he
      exact alookup_none_eraseKeys rest (aerase c l) c (alookup_aerase_self c l hnd)
    · exact ih (aerase c0 l) c (aerase_keys_nodup c0 l hnd)
        (by rcases List.mem_cons.mp hc with h | h; exact absurd h he; exact h)

/-- Scan a trace for the claim that action x happens before action y:
true when some x is met before any y (vacuously true when neither
occurs), false when a y is met first. -/
def clearedBefore (x y : Act) : List Act → Bool
  | [] => true
  | a :: rest => if a = x then true else if a = y then false else clearedBefore x y rest

theorem clearedBefore_skip (x y a : Act) (tr : List Act)
    (h1 : a ≠ x) (h2 : a ≠ y) :
    clearedBefore x y (a :: tr) = clearedBefore x y tr := by
  simp [clearedBefore, h1, h2]

theorem clearedBefore_append_skip (x y : Act) :
    ∀ (pre tr : List Act), (∀ a ∈ pre, a ≠ x ∧ a ≠ y) →
      clearedBefore x y (pre ++ tr) = clearedBefore x y tr := by
  intro pre
  induction pre with
  | nil => intro tr _; rfl
  | cons a rest ih =>
    intro tr h
    have ha := h a (List.mem_cons_self a rest)
    rw [List.cons_append, clearedBefore_skip x y a (rest ++ tr) ha.1 ha.2]
    exact ih tr (fun b hb => h b (List.mem_cons_of_mem a hb))


/-- Characterization of Signal::disconnect when the handle is present in
the table: the entry is erased, the connection ends with both
back-references null, no other connection record is touched, the target
slot set (if any) loses the connection, and the trace only contains the
two back-reference writes for this connection. -/
theorem Signal.disconnect_found (w : World) (sig c : Nat)
    (table : List (Nat × Callable)) (conn : Connection)
    (htab : alookup sig w.signals = some table)
    (hc : alookup c w.conns = some conn)
    (hin : (alookup c table).isSome) :
    (Signal.disconnect w sig c).1.signals = aupdate sig (aerase c table) w.signals
    ∧ alookup c (Signal.disconnect w sig c).1.conns
        = some { m_pSignal := none, m_pSlot := none }
    ∧ (∀ c', c' ≠ c → alookup c' (Signal.disconnect w sig c).1.conns = alookup c' w.conns)
    ∧ (Signal.disconnect w sig c).1.slots
        = (match conn.m_pSlot with
           | none => w.slots
           | some s => amodify s (serase c) w.slots)
    ∧ (Signal.disconnect w sig c).1.nextId = w.nextId
    ∧ (∀ a ∈ (Signal.disconnect w sig c).2,
        a = Act.setPSignal c none ∨ a = Act.setPSlot c none) := by
  have hnn : (alookup c table).isNone = false := by
    rcases h : alookup c table with _ | v
    · rw [h] at hin; simp at hin
    · rfl
  have hcs : (alookup c w.conns).isSome := by rw [hc]; rfl
  rcases hps : conn.m_pSlot with _ | s
  · have hred : Signal.disconnect w sig c
        = (World.mk (aupdate c { conn with m_pSignal := none } w.conns)
            w.slots
            (aupdate sig (aerase c table) w.signals)
            w.nextId,
           [Act.setPSignal c none]) := by
      simp [Signal.disconnect, htab, hnn, hc, hps]
    rw [hred]
    refine ⟨rfl, ?_, ?_, ?_, rfl, ?_⟩
    · rw [alookup_aupdate_self c _ w.conns hcs]
      simp [hps]
    · intro c' hne
      exact alookup_aupdate_ne c c' _ hne w.conns
    · simp [hps]
    · intro a ha
      simp at ha
      exact Or.inl ha
  · have hred : Signal.disconnect w sig c
        = (World.mk (aupdate c { conn with m_pSignal := none, m_pSlot := none }
              (aupdate c { conn with m_pSignal := none } w.conns))
            (amodify s (serase c) w.slots)
            (aupdate sig (aerase c table) w.signals)
            w.nextId,
           [Act.setPSignal c none, Act.setPSlot c none]) := by
      simp [Signal.disconnect, htab, hnn, hc, hps]
    rw [hred]
    have hcs2 : (alookup c (aupdate c { conn with m_pSignal := none } w.conns)).isSome := by
      rw [alookup_aupdate_self c _ w.conns hcs]; rfl
    refine ⟨rfl, ?_, ?_, ?_, rfl, ?_⟩
    · rw [alookup_aupdate_self c _ _ hcs2]
    · intro c' hne
      rw [alookup_aupdate_ne c c' _ hne, alookup_aupdate_ne c c' _ hne]
    · simp [hps]
    · intro a ha
      simp at ha
      rcases ha with h | h
      · exact Or.inl h
      · exact Or.inr h

/-- C5: disconnect is idempotent. For a Connection registered on a
Signal, the first Connection::disconnect removes exactly one table entry
so count drops by exactly 1 and the owningSignal back-reference is
cleared; the second call finds owningSignal already null, returns
without any action, changes nothing, and the total drop stays 1. -/
theorem connection_disconnect_idempotent (w : World) (c sig : Nat)
    (conn : Connection) (table : List (Nat × Callable))
    (hc : alookup c w.conns = some conn)
    (hsg : conn.m_pSignal = some sig)
    (htab : alookup sig w.signals = some table)
    (hin : (alookup c table).isSome) :
    Signal.count (Connection.disconnect w c).1 sig + 1 = Signal.count w sig
    ∧ alookup c (Connection.disconnect w c).1.conns
        = some { m_pSignal := none, m_pSlot := none }
    ∧ Connection.disconnect (Connection.disconnect w c).1 c
        = ((Connection.disconnect w c).1, [])
    ∧ Signal.count (Connection.disconnect (Connection.disconnect w c).1 c).1 sig + 1
        = Signal.count w sig := by
  have hfst : (Connection.disconnect w c).1 = (Signal.disconnect w sig c).1 := by
    simp [Connection.disconnect, hc, hsg]
  obtain ⟨h1, h2, h3, h4, h5, h6⟩ := Signal.disconnect_found w sig c table conn htab hc hin
  have hl : alookup sig (Signal.disconnect w sig c).1.signals = some (aerase c table) := by
    rw [h1]
    exact alookup_aupdate_self sig _ w.signals (by rw [htab]; rfl)
  have hcount : Signal.count (Signal.disconnect w sig c).1 sig + 1 = Signal.count w sig := by
    simp only [Signal.count, hl, htab]
    exact aerase_length c table hin
  have hsecond : Connection.disconnect (Signal.disconnect w sig c).1 c
      = ((Signal.disconnect w sig c).1, []) := by
    simp [Connection.disconnect, h2]
  refine ⟨by rw [hfst]; exact hcount, by rw [hfst]; exact h2, ?_, ?_⟩
  · rw [hfst]
    exact hsecond
  · rw [hfst, hsecond]
    exact hcount

/-- World for the idempotence witness: signal 0 holding two
free-function connections, ids 0 and 1. -/
def wIdem : World :=
  World.mk
    [(0, { m_pSignal := some 0, m_pSlot := none }),
     (1, { m_pSignal := some 0, m_pSlot := none })]
    []
    [(0, [(0, Callable.free 1), (1, Callable.free 2)])]
    2

/-- Witness for C5 at a concrete world: disconnecting connection 0 twice
drops count from 2 to 1, and the second call is a no-op. -/
theorem connection_disconnect_idempotent_witness :
    Signal.count (Connection.disconnect wIdem 0).1 0 + 1 = Signal.count wIdem 0
    ∧ Connection.disconnect (Connection.disconnect wIdem 0).1 0
        = ((Connection.disconnect wIdem 0).1, []) := by
  have h := connection_disconnect_idempotent wIdem 0 0
    { m_pSignal := some 0, m_pSlot := none }
    [(0, Callable.free 1), (1, Callable.free 2)] (by decide) (by decide) (by decide) (by decide)
  exact ⟨h.1, h.2.2.1⟩

/-- C6: disconnecting a handle that is not a key of this Signal table
(foreign, already removed, or never connected) is a silent no-op: the
whole world is returned unchanged with an empty trace, so count and the
handle back-references are untouched. -/
theorem signal_disconnect_foreign_noop (w : World) (sig c : Nat)
    (table : List (Nat × Callable))
    (htab : alookup sig w.signals = some table)
    (hnotin : alookup c table = none) :
    Signal.disconnect w sig c = (w, [])
    ∧ Signal.count (Signal.disconnect w sig c).1 sig = Signal.count w sig
    ∧ alookup c (Signal.disconnect w sig c).1.conns = alookup c w.conns := by
  have h : Signal.disconnect w sig c = (w, []) := by
    simp [Signal.disconnect, htab, hnotin]
  exact ⟨h, by rw [h], by rw [h]⟩

/-- World for the foreign-handle witness: connection 5 belongs to signal
1; signal 0 holds an unrelated connection 9. -/
def wForeign : World :=
  World.mk
    [(5, { m_pSignal := some 1, m_pSlot := none })]
    []
    [(0, [(9, Callable.free 0)]), (1, [(5, Callable.free 1)])]
    10

/-- Witness for C6 at a concrete world: disconnecting the foreign handle
5 through signal 0 changes nothing. -/
theorem signal_disconnect_foreign_noop_witness :
    Signal.disconnect wForeign 0 5 = (wForeign, [])
    ∧ Signal.count (Signal.disconnect wForeign 0 5).1 0 = Signal.count wForeign 0 := by
  have h := signal_disconnect_foreign_noop wForeign 0 5 [(9, Callable.free 0)]
    (by decide) (by decide)
  exact ⟨h.1, h.2.1⟩

/-- World for the C7 analysis: signal 0 holds the single free-function
connection 0. -/
def wPre : World :=
  World.mk
    [(0, { m_pSignal := some 0, m_pSlot := none })]
    []
    [(0, [(0, Callable.free 5)])]
    1

/-- Counterexample to C7 as stated: the claim requires
Connection::disconnect to null owningSignal before invoking the removal
entry point, i.e. a setPSignal-to-null action would have to precede the
callSignalDisconnect action in the trace. On the concrete world wPre the
recorded trace starts with the callSignalDisconnect action, so the
required ordering predicate evaluates to false. -/
theorem connection_disconnect_no_prenull :
    clearedBefore (Act.setPSignal 0 none) (Act.callSignalDisconnect 0 0)
      (Connection.disconnect wPre 0).2 = false := by decide

/-- C7 amended: if owningSignal is non-null, Connection::disconnect
snapshots it under the Connection lock and invokes that signal's removal
entry point with a non-owning reference to itself, without writing to
owningSignal first; the removal entry point performs the clearing. If
owningSignal is null, the call is a silent no-op with no state change. -/
theorem connection_disconnect_amended (w : World) (c : Nat) (conn : Connection)
    (hc : alookup c w.conns = some conn) :
    (conn.m_pSignal = none → Connection.disconnect w c = (w, []))
    ∧ (∀ sig, conn.m_pSignal = some sig →
        Connection.disconnect w c
          = ((Signal.disconnect w sig c).1,
             Act.callSignalDisconnect sig c :: (Signal.disconnect w sig c).2)) := by
  constructor
  · intro h
    simp [Connection.disconnect, hc, h]
  · intro sig h
    simp [Connection.disconnect, hc, h]

/-- Witness for the amended C7 at a concrete world. -/
theorem connection_disconnect_amended_witness :
    Connection.disconnect wPre 0
      = ((Signal.disconnect wPre 0 0).1,
         Act.callSignalDisconnect 0 0 :: (Signal.disconnect wPre 0 0).2) :=
  (connection_disconnect_amended wPre 0
    { m_pSignal := some 0, m_pSlot := none } (by decide)).2 0 (by decide)

/-- C9: the call operator and emit are the same operation. The source
duplicates the body of emit verbatim in operator(), so the two functions
agree on every world, signal and argument, in both the resulting state
and the invocation events. -/
theorem callOp_eq_emit (α : Type) (w : World) (sig : Nat) (a : α) :
    Signal.callOp w sig a = Signal.emit w sig a := rfl

/-- C10: emit is read-only on the registry. For every world, signal and
argument, emit returns the world unchanged, in particular the connection
records and count are exactly what they were before. The proviso of the
claim (callables do not re-enter the machinery) holds by construction:
stored callables are invocation events, not state transformers. -/
theorem emit_frame (α : Type) (w : World) (sig : Nat) (a : α) :
    (Signal.emit w sig a).1 = w
    ∧ Signal.count (Signal.emit w sig a).1 sig = Signal.count w sig
    ∧ (Signal.emit w sig a).1.conns = w.conns := by
  have h : (Signal.emit w sig a).1 = w := by
    cases h' : alookup sig w.signals <;> simp [Signal.emit, h']
  exact ⟨h, by rw [h], by rw [h]⟩

/-- C3: emit delivers to every currently-registered callable exactly
once with exactly the given argument. The invocation-event list has one
event per table entry; every registered entry produces an event carrying
the emitted argument; for each callable value, the number of events
equals the number of table entries storing that callable (exactly once
per registration, never zero, never more); and every event comes from a
registered entry with the emitted argument (nothing else is invoked). -/
theorem emit_delivers_each_once (α : Type) [DecidableEq α]
    (w : World) (sig : Nat) (a : α) (table : List (Nat × Callable))
    (h : alookup sig w.signals = some table) :
    ((Signal.emit w sig a).2).length = table.length
    ∧ (∀ c k, (c, k) ∈ table → (k, a) ∈ (Signal.emit w sig a).2)
    ∧ (∀ k : Callable,
        ((Signal.emit w sig a).2).countP (fun e => decide (e = (k, a)))
          = table.countP (fun kv => decide (kv.2 = k)))
    ∧ (∀ e ∈ (Signal.emit w sig a).2, e.2 = a ∧ ∃ c, (c, e.1) ∈ table) := by
  have hred : (Signal.emit w sig a).2 = table.map (fun kv => (kv.2, a)) := by
    simp [Signal.emit, h]
  rw [hred]
  refine ⟨List.length_map _ _, ?_, ?_, ?_⟩
  · intro c k hm
    exact List.mem_map.mpr ⟨(c, k), hm, rfl⟩
  · intro k
    rw [List.countP_map]
    apply List.countP_congr
    intro kv _
    simp [Function.comp, Prod.ext_iff]
  · intro e he
    rcases List.mem_map.mp he with ⟨kv, hkv, hek⟩
    refine ⟨by rw [← hek], kv.1, ?_⟩
    rw [← hek]
    exact hkv

/-- World for the delivery witness: signal 0 holds one free-function
connection (the two-argument listener of the canonical usage). -/
def wEmit : World :=
  World.mk
    [(0, { m_pSignal := some 0, m_pSlot := none })]
    []
    [(0, [(0, Callable.free 0)])]
    1

/-- Witness for C3 at a concrete world with a pair argument: emitting
the pair of 10 and 20 produces exactly one event, carrying the listener
callable and exactly that pair. -/
theorem emit_delivers_each_once_witness :
    ((Signal.emit wEmit 0 ((10 : Nat), (20 : Nat))).2).length = 1
    ∧ (Callable.free 0, ((10 : Nat), (20 : Nat)))
        ∈ (Signal.emit wEmit 0 ((10 : Nat), (20 : Nat))).2 := by
  have h := emit_delivers_each_once (Nat × Nat) wEmit 0 (10, 20)
    [(0, Callable.free 0)] (by decide)
  exact ⟨h.1, h.2.1 0 (Callable.free 0) (by decide)⟩

/-- World exhibiting the disconnectAll defect: signal 0 holds one
bound-method connection 0 targeting slot 100, and slot 100's set holds
connection 0. -/
def wBug : World :=
  World.mk
    [(0, { m_pSignal := some 0, m_pSlot := some 100 })]
    [(100, [0])]
    [(0, [(0, Callable.bound 100 5)])]
    1

/-- C1 evaluated at the failing input: after disconnectAll on wBug,
count is 0, owningSignal is cleared and the connection is gone from the
slot set, but targetSlot still points at slot 100 because the
disconnectAll loop never writes m_pSlot; the same stale back-reference
survives full destruction of the Signal. This contradicts the claim
that both back-references read null afterward. -/
theorem disconnectAll_leaves_stale_slot_ref :
    Signal.count (Signal.disconnectAll wBug 0).1 0 = 0
    ∧ alookup 0 (Signal.disconnectAll wBug 0).1.conns
        = some { m_pSignal := none, m_pSlot := some 100 }
    ∧ alookup 100 (Signal.disconnectAll wBug 0).1.slots = some []
    ∧ alookup 0 (Signal.destroy wBug 0).1.conns
        = some { m_pSignal := none, m_pSlot := some 100 } := by decide

/-- Executable check of the claimed invariant: every connection with a
non-null targetSlot is listed in that slot's set, and every id in any
slot's set is an allocated connection whose targetSlot points back at
that slot. -/
def slotInvCheck (w : World) : Bool :=
  (w.conns.all (fun p =>
    match p.2.m_pSlot with
    | none => true
    | some s =>
      match alookup s w.slots with
      | none => false
      | some sset => sset.contains p.1))
  && (w.slots.all (fun q => q.2.all (fun c =>
      match alookup c w.conns with
      | none => false
      | some conn => conn.m_pSlot == some q.1)))

/-- The invariant of the claim, as a proposition. -/
def SlotInv (w : World) : Prop := slotInvCheck w = true

/-- C2 evaluated at the failing input: the targetSlot-iff-membership
invariant holds in wBug and is violated after Signal::disconnectAll,
because the loop erases the connection from the slot set without
clearing the connection's m_pSlot. -/
theorem disconnectAll_breaks_slot_invariant :
    SlotInv wBug ∧ ¬ SlotInv (Signal.disconnectAll wBug 0).1 := by
  unfold SlotInv
  decide

/-- Fresh starting world for the canonical usage scenario: an empty
signal 0 and a live slot-capable object foobar with id 100. -/
def wStart : World := World.mk [] [(100, [])] [(0, [])] 0

/-- State after connecting three anonymous callables (connection ids 0,
1, 2) plus one bound method on foobar (connection id 3). -/
def wFour : World :=
  (Signal.connectMethod
    (Signal.connectFunc (Signal.connectFunc (Signal.connectFunc wStart 0 10).1 0 11).1 0 12).1
    0 100 50).1

/-- State after disconnecting connection 0 through the handle itself. -/
def wThree : World := (Connection.disconnect wFour 0).1

/-- State after disconnecting connection 1 through the Signal. -/
def wTwo : World := (Signal.disconnect wThree 0 1).1

/-- State after destroying foobar. -/
def wOne : World := (Slot.destroy wTwo 100).1

/-- State after disconnectAll. -/
def wZero : World := (Signal.disconnectAll wOne 0).1

/-- C8: the end-to-end scenario of the canonical usage. Counts go 4, 3,
2, 1, 0 through handle disconnect, signal disconnect, slot destruction
and disconnectAll. -/
theorem scenario_counts :
    Signal.count wFour 0 = 4
    ∧ Signal.count wThree 0 = 3
    ∧ Signal.count wTwo 0 = 2
    ∧ Signal.count wOne 0 = 1
    ∧ Signal.count wZero 0 = 0 := by decide

/-- Intermediate world inside one iteration of the Slot destructor loop,
after the two back-reference writes on connection c0. -/
def wStep (w : World) (c0 : Nat) : World :=
  { w with conns := aupdate c0 (Connection.mk none none) w.conns }

/-- One unfolding step of the Slot destructor loop when the head
connection is live and owned by signal sig. -/
theorem Slot.dtorLoop_cons_step (w : World) (c0 : Nat) (rest : List Nat)
    (sig : Nat) (p0 : Option Nat)
    (hc0 : alookup c0 w.conns = some { m_pSignal := some sig, m_pSlot := p0 }) :
    Slot.dtorLoop (c0 :: rest) w
      = ((Slot.dtorLoop rest (Signal.disconnect (wStep w c0) sig c0).1).1,
         Act.setPSlot c0 none :: Act.setPSignal c0 none ::
           Act.callSignalDisconnect sig c0 ::
           ((Signal.disconnect (wStep w c0) sig c0).2
             ++ (Slot.dtorLoop rest (Signal.disconnect (wStep w c0) sig c0).1).2)) := by
  simp [Slot.dtorLoop, hc0, wStep]

/-- Behaviour of the Slot destructor loop on a list of pairwise-distinct
connections, all live and owned by signal sig, all registered in the
signal table: no slot set is modified, the signal table loses exactly
the processed keys, every processed connection ends with both
back-references null, other connection records are untouched, and in the
trace each processed connection has its targetSlot cleared strictly
before the removal entry point is invoked for it. -/
theorem Slot.dtorLoop_spec (sig : Nat) :
    ∀ (lst : List Nat) (w : World) (tbl : List (Nat × Callable)),
      lst.Nodup →
      (∀ c ∈ lst, ∃ p, alookup c w.conns = some { m_pSignal := some sig, m_pSlot := p }) →
      alookup sig w.signals = some tbl →
      (∀ c ∈ lst, (alookup c tbl).isSome) →
      (Slot.dtorLoop lst w).1.slots = w.slots
      ∧ alookup sig (Slot.dtorLoop lst w).1.signals = some (eraseKeys lst tbl)
      ∧ (∀ c ∈ lst, alookup c (Slot.dtorLoop lst w).1.conns
          = some { m_pSignal := none, m_pSlot := none })
      ∧ (∀ c', c' ∉ lst → alookup c' (Slot.dtorLoop lst w).1.conns = alookup c' w.conns)
      ∧ (∀ c ∈ lst, clearedBefore (Act.setPSlot c none) (Act.callSignalDisconnect sig c)
          (Slot.dtorLoop lst w).2 = true) := by
  intro lst
  induction lst with
  | nil =>
    intro w tbl _ _ htab _
    refine ⟨rfl, ?_, ?_, ?_, ?_⟩
    · simpa [Slot.dtorLoop, eraseKeys] using htab
    · intro c hc
      simp at hc
    · intro c' _
      rfl
    · intro c hc
      simp at hc
  | cons c0 rest ih =>
    intro w tbl hnd hconns htab hin
    obtain ⟨p0, hc0⟩ := hconns c0 (List.mem_cons_self c0 rest)
    have hnd' := List.nodup_cons.mp hnd
    have hred := Slot.dtorLoop_cons_step w c0 rest sig p0 hc0
    have hc0some : (alookup c0 w.conns).isSome := by rw [hc0]; rfl
    have hw1c0 : alookup c0 (wStep w c0).conns = some (Connection.mk none none) :=
      alookup_aupdate_self c0 _ w.conns hc0some
    have hw1tab : alookup sig (wStep w c0).signals = some tbl := htab
    obtain ⟨d1, d2, d3, d4, d5, d6⟩ :=
      Signal.disconnect_found (wStep w c0) sig c0 tbl (Connection.mk none none)
        hw1tab hw1c0 (hin c0 (List.mem_cons_self c0 rest))
    have hw2slots : (Signal.disconnect (wStep w c0) sig c0).1.slots = w.slots := by
      rw [d4]
      rfl
    have hw2tab : alookup sig (Signal.disconnect (wStep w c0) sig c0).1.signals
        = some (aerase c0 tbl) := by
      rw [d1]
      exact alookup_aupdate_self sig _ (wStep w c0).signals (by rw [hw1tab]; rfl)
    have hw2other : ∀ c', c' ≠ c0 →
        alookup c' (Signal.disconnect (wStep w c0) sig c0).1.conns = alookup c' w.conns := by
      intro c' hne
      rw [d3 c' hne]
      exact alookup_aupdate_ne c0 c' _ hne w.conns
    obtain ⟨i1, i2, i3, i4, i5⟩ :=
      ih (Signal.disconnect (wStep w c0) sig c0).1 (aerase c0 tbl) hnd'.2
        (by
          intro c hc
          obtain ⟨p, hp⟩ := hconns c (List.mem_cons_of_mem c0 hc)
          have hne : c ≠ c0 := fun he => hnd'.1 (he ▸ hc)
          exact ⟨p, by rw [hw2other c hne]; exact hp⟩)
        hw2tab
        (by
          intro c hc
          have hne : c ≠ c0 := fun he => hnd'.1 (he ▸ hc)
          rw [alookup_aerase_ne c0 c hne]
          exact hin c (List.mem_cons_of_mem c0 hc))
    rw [hred]
    refine ⟨?_, ?_, ?_, ?_, ?_⟩
    · rw [i1, hw2slots]
    · rw [i2, eraseKeys_cons]
    · intro c hc
      rcases List.mem_cons.mp hc with he | hm
      · subst he
        rw [i4 c hnd'.1, d2]
      · exact i3 c hm
    · intro c' hnotin
      have h1 : c' ∉ rest := fun h => hnotin (List.mem_cons_of_mem c0 h)
      have h2 : c' ≠ c0 := fun h => hnotin (h ▸ List.mem_cons_self c0 rest)
      rw [i4 c' h1, hw2other c' h2]
    · intro c hc
      rcases List.mem_cons.mp hc with he | hm
      · subst he
        simp [clearedBefore]
      · have hcc : c ≠ c0 := fun he => hnd'.1 (he ▸ hm)
        have e1 : Act.setPSlot c0 none ≠ Act.setPSlot c none := by
          intro he
          injection he with h1 h2
          exact hcc h1.symm
        have e2 : Act.setPSlot c0 none ≠ Act.callSignalDisconnect sig c := by simp
        have e3 : Act.setPSignal c0 none ≠ Act.setPSlot c none := by simp
        have e4 : Act.setPSignal c0 none ≠ Act.callSignalDisconnect sig c := by simp
        have e5 : Act.callSignalDisconnect sig c0 ≠ Act.setPSlot c none := by simp
        have e6 : Act.callSignalDisconnect sig c0 ≠ Act.callSignalDisconnect sig c := by
          intro he
          injection he with h1 h2
          exact hcc h2.symm
        rw [clearedBefore_skip _ _ _ _ e1 e2, clearedBefore_skip _ _ _ _ e3 e4,
          clearedBefore_skip _ _ _ _ e5 e6,
          clearedBefore_append_skip _ _ _ _ (by
            intro a ha
            rcases d6 a ha with h | h
            · subst h
              exact ⟨e3, e4⟩
            · subst h
              exact ⟨e1, e2⟩)]
        exact i5 c hm

/-- Check whether a stored callable is a bound method targeting slot s
(an invocation of it would run a method on the object with id s). -/
def targetsSlot (s : Nat) : Callable → Bool
  | Callable.free _ => false
  | Callable.bound s' _ => s' = s

/-- C4 amended: destroying a slot-capable object whose set holds M
pairwise-distinct connections, all owned by signal sig and registered in
its table (and such that every bound-method entry of the table targeting
this slot is one of them): for every connection in the set, targetSlot
is cleared before the removal entry point is invoked for it; after the
destructor loop the slot set still holds its entries unchanged (it is
discarded only together with the object, not emptied by the loop), while
every such connection already has both back-references null; the signal
count decreases by exactly M; and no subsequent emit produces an
invocation of a method bound to the destroyed object. -/
theorem slot_dtor_amended (w : World) (s sig : Nat)
    (sset : List Nat) (table : List (Nat × Callable))
    (hslot : alookup s w.slots = some sset)
    (hnd : sset.Nodup)
    (hsig : alookup sig w.signals = some table)
    (htabnd : (table.map Prod.fst).Nodup)
    (hconns : ∀ c ∈ sset, ∃ p, alookup c w.conns = some { m_pSignal := some sig, m_pSlot := p })
    (hin : ∀ c ∈ sset, (alookup c table).isSome)
    (hbound : ∀ kv ∈ table, targetsSlot s kv.2 = true → kv.1 ∈ sset) :
    alookup s (Slot.dtorBody w s).1.slots = some sset
    ∧ (∀ c ∈ sset, alookup c (Slot.destroy w s).1.conns
        = some { m_pSignal := none, m_pSlot := none })
    ∧ Signal.count (Slot.destroy w s).1 sig + sset.length = Signal.count w sig
    ∧ (∀ c ∈ sset, clearedBefore (Act.setPSlot c none) (Act.callSignalDisconnect sig c)
        (Slot.destroy w s).2 = true)
    ∧ (∀ (α : Type) (a : α), ∀ e ∈ (Signal.emit (Slot.destroy w s).1 sig a).2,
        targetsSlot s e.1 = false) := by
  have hbody : Slot.dtorBody w s = Slot.dtorLoop sset w := by
    simp [Slot.dtorBody, hslot]
  obtain ⟨m1, m2, m3, m4, m5⟩ := Slot.dtorLoop_spec sig sset w table hnd hconns hsig hin
  have hdconns : (Slot.destroy w s).1.conns = (Slot.dtorLoop sset w).1.conns := by
    simp [Slot.destroy, hbody]
  have hdsig : (Slot.destroy w s).1.signals = (Slot.dtorLoop sset w).1.signals := by
    simp [Slot.destroy, hbody]
  have htr : (Slot.destroy w s).2 = (Slot.dtorLoop sset w).2 := by
    simp [Slot.destroy, hbody]
  have hlook : alookup sig (Slot.destroy w s).1.signals = some (eraseKeys sset table) := by
    rw [hdsig]
    exact m2
  refine ⟨?_, ?_, ?_, ?_, ?_⟩
  · rw [hbody, m1]
    exact hslot
  · intro c hc
    rw [hdconns]
    exact m3 c hc
  · have hcnt : Signal.count (Slot.destroy w s).1 sig = (eraseKeys sset table).length := by
      simp [Signal.count, hlook]
    have hcntw : Signal.count w sig = table.length := by
      simp [Signal.count, hsig]
    rw [hcnt, hcntw]
    exact eraseKeys_length sset table hnd hin
  · intro c hc
    rw [htr]
    exact m5 c hc
  · intro α a e he
    have hred : (Signal.emit (Slot.destroy w s).1 sig a).2
        = (eraseKeys sset table).map (fun kv => (kv.2, a)) := by
      simp [Signal.emit, hlook]
    rw [hred] at he
    rcases List.mem_map.mp he with ⟨kv, hkv, hek⟩
    have he1 : e.1 = kv.2 := by rw [← hek]
    rw [he1]
    cases hts : targetsSlot s kv.2 with
    | false => rfl
    | true =>
      exfalso
      have hmemtbl : kv ∈ table := mem_of_mem_eraseKeys sset table kv hkv
      have hcin : kv.1 ∈ sset := hbound kv hmemtbl hts
      have hnone : alookup kv.1 (eraseKeys sset table) = none :=
        eraseKeys_lookup_none sset table kv.1 htabnd hcin
      have hsome : (alookup kv.1 (eraseKeys sset table)).isSome :=
        alookup_isSome_of_mem kv.1 kv.2 (eraseKeys sset table) hkv
      rw [hnone] at hsome
      simp at hsome

/-- World for the C4 counterexample: slot 100 holds one bound-method
connection 0 on signal 0. -/
def wLoop : World :=
  World.mk
    [(0, { m_pSignal := some 0, m_pSlot := some 100 })]
    [(100, [0])]
    [(0, [(0, Callable.bound 100 5)])]
    1

/-- Counterexample to C4 as stated: after the destructor loop of slot
100 the slot set still holds connection 0 and is not empty. The loop
never erases from the dying set, because targetSlot is nulled before
Signal::disconnect runs, which makes the erase there unreachable; the
entries disappear only when the set member itself is destroyed. -/
theorem slot_dtor_set_not_emptied :
    alookup 100 (Slot.dtorBody wLoop 100).1.slots = some [0]
    ∧ some [0] ≠ some ([] : List Nat) := by decide

/-- World for the amended C4 witness: slot 100 holds bound-method
connections 0 and 1 on signal 0, which also holds the free connection 2. -/
def wSlotW : World :=
  World.mk
    [(0, { m_pSignal := some 0, m_pSlot := some 100 }),
     (1, { m_pSignal := some 0, m_pSlot := some 100 }),
     (2, { m_pSignal := some 0, m_pSlot := none })]
    [(100, [0, 1])]
    [(0, [(0, Callable.bound 100 7), (1, Callable.bound 100 8), (2, Callable.free 5)])]
    3

/-- Witness for the amended C4 at a concrete world: the slot set is
unchanged after the destructor loop and the count drops from 3 to 1. -/
theorem slot_dtor_amended_witness :
    alookup 100 (Slot.dtorBody wSlotW 100).1.slots = some [0, 1]
    ∧ Signal.count (Slot.destroy wSlotW 100).1 0 + 2 = Signal.count wSlotW 0 := by
  have h := slot_dtor_amended wSlotW 100 0 [0, 1]
    [(0, Callable.bound 100 7), (1, Callable.bound 100 8), (2, Callable.free 5)]
    (by decide) (by decide) (by decide) (by decide)
    (by
      intro c hc
      fin_cases hc
      · exact ⟨some 100, by decide⟩
      · exact ⟨some 100, by decide⟩)
    (by decide) (by decide)
  exact ⟨h.1, h.2.2.1⟩
